import Mathlib

/-!
Shallow embedding of the watch-together backend (`backend/main.py`):
the in-memory room registry, the join/disconnect lifecycle, and the
signaling routing (offer / answer / ice / chat / host-status).

Python dicts keep insertion order and unique keys; they are embedded as
association lists with first-match lookup, `insertA` replacing in place
(as dict assignment does) and `eraseA` removing the entry (as `pop` does).
Each socket.io `emit` is recorded as an `Emit` value carrying the event
name, the payload and the destination (`to=sid` or `room=..., skip_sid=...`).
A destination is resolved against the registry by `resolveDest`: a room
broadcast reaches the room's current participants minus the skipped
session (the socket.io room group is kept in sync with the participants
map by `enter_room` on join, and socket.io itself drops disconnected
sessions from their groups).  Python truthiness on an optional string
(`if target:`) is `truthy`.
-/

set_option autoImplicit false

namespace WatchTogether

abbrev Sid := String

/-- One entry of a room's `participants` dict: `{"sid": .., "name": .., "role": ..}`. -/
structure Participant where
  sid : Sid
  name : String
  role : String
deriving DecidableEq, Repr

/-- The fields that incoming socket.io event payloads can carry.  A field that
is absent from the dict, or present with value `None`, is `none`. -/
structure Data where
  room : Option String := none
  target : Option Sid := none
  name : Option String := none
  text : Option String := none
  role : Option String := none
  offer : Option String := none
  answer : Option String := none
  candidate : Option String := none
deriving DecidableEq, Repr

/-- Per-room metadata: `{"host_sid": .., "participants": .., "created_at": ..}`,
plus the `host_state` key written by the `host_state` handler. -/
structure RoomMeta where
  host_sid : Option Sid
  participants : List (Sid × Participant)
  created_at : Nat
  host_state : Option Data := none
deriving DecidableEq, Repr

/-- The module-level `rooms` dict: room code -> metadata. -/
abbrev Registry := List (String × RoomMeta)

/-- First-match lookup in an association list (python `d.get(k)` / `k in d`). -/
def lookupA {β : Type} : List (String × β) → String → Option β
  | [], _ => none
  | (k, v) :: t, k₀ => if k = k₀ then some v else lookupA t k₀

/-- Dict assignment `d[k] = v`: replace in place if the key exists, else append. -/
def insertA {β : Type} : List (String × β) → String → β → List (String × β)
  | [], k, v => [(k, v)]
  | (k₀, v₀) :: t, k, v => if k₀ = k then (k, v) :: t else (k₀, v₀) :: insertA t k v

/-- Dict removal `d.pop(k)` (the key occurs at most once in a real dict). -/
def eraseA {β : Type} : List (String × β) → String → List (String × β)
  | [], _ => []
  | (k₀, v₀) :: t, k => if k₀ = k then t else (k₀, v₀) :: eraseA t k

/-- `str.upper()` of python (ASCII case mapping, which covers the room-code
alphabet of uppercase letters and digits). -/
def upper (s : String) : String := ⟨s.data.map Char.toUpper⟩

/-- Python truthiness of an optional string: `None` and `""` are falsy. -/
def truthy : Option String → Bool
  | none => false
  | some s => s != ""

/-- Destination of a `sio.emit` call: `to=sid`, or `room=.., skip_sid=..`
(`room` is passed verbatim, so it can itself be absent). -/
inductive Dest where
  | toSid (sid : Sid)
  | toRoom (room : Option String) (skip : Option Sid)
deriving DecidableEq, Repr

/-- Payloads of the outbound events emitted by the handlers. -/
inductive Payload where
  | joinError (err : String)
  | roomCreated (room : String)
  | userJoined (sid : Sid) (name : String) (role : String)
  | joined (room : String) (hostOnline : Bool)
  | viewerJoined (vsid : Sid) (vname : String)
  | userLeft (sid : Sid) (name : String)
  | hostLeft (msg : String)
  | offerP (src : Sid) (offer : Option String)
  | answerP (src : Sid) (answer : Option String)
  | iceP (src : Sid) (candidate : Option String)
  | chatP (src : Sid) (name : Option String) (text : Option String)
  | hostStateP (d : Data)
deriving DecidableEq, Repr

/-- One `sio.emit(event, payload, ...)` call. -/
structure Emit where
  event : String
  payload : Payload
  dest : Dest
deriving DecidableEq, Repr

/-- The participant sids of a room (empty when the code is unknown):
what a `room=code` broadcast reaches before `skip_sid` filtering. -/
def roomSids (reg : Registry) (code : String) : List Sid :=
  match lookupA reg code with
  | none => []
  | some meta => meta.participants.map Prod.fst

/-- Every participant sid of every room (a `room=None` emit is a
namespace-wide broadcast, approximated by all known participants). -/
def allSids (reg : Registry) : List Sid :=
  (reg.map (fun p => p.2.participants.map Prod.fst)).flatten

/-- The sessions a destination delivers to, given the registry at delivery time. -/
def resolveDest (reg : Registry) : Dest → List Sid
  | .toSid s => [s]
  | .toRoom none skip => (allSids reg).filter (fun s => skip ≠ some s)
  | .toRoom (some code) skip => (roomSids reg code).filter (fun s => skip ≠ some s)

/-- All sessions reached by a list of emits. -/
def receivers (reg : Registry) (evs : List Emit) : List Sid :=
  (evs.map (fun e => resolveDest reg e.dest)).flatten

/-- The fresh metadata stored for a newly created room:
`{"host_sid": None, "participants": {}, "created_at": now}`. -/
def fresh_meta (now : Nat) : RoomMeta :=
  { host_sid := none, participants := [], created_at := now }

/-- The `for _ in range(5): code = gen_room_code(); if code not in rooms: break`
loop of `create_room`, over the stream of generated candidates: the first
candidate free in the registry, or the last one if every candidate collides. -/
def pickCode : Registry → List String → String
  | _, [] => ""
  | _, [c] => c
  | reg, c :: c₁ :: rest =>
    if (lookupA reg c).isNone then c else pickCode reg (c₁ :: rest)

/-- `POST /create-room`: pick a code by bounded retry (the caller passes the
five generated candidates), then store a fresh room under it unconditionally. -/
def create_room (reg : Registry) (cands : List String) (now : Nat) :
    Registry × String :=
  let code := pickCode reg cands
  (insertA reg code (fresh_meta now), code)

/-- Socket event `create_room_client`: one generated code, no retry,
store a fresh room and acknowledge the requester. -/
def create_room_client (reg : Registry) (sid : Sid) (code : String) (now : Nat) :
    Registry × List Emit :=
  (insertA reg code (fresh_meta now),
   [⟨"room-created", .roomCreated code, .toSid sid⟩])

/-- `GET /room/{room_code}`: `None` on unknown code, else the participant list
and `host_online = bool(meta["host_sid"])`. -/
def get_room (reg : Registry) (code : String) : Option (List Participant × Bool) :=
  match lookupA reg (upper code) with
  | none => none
  | some meta => some (meta.participants.map Prod.snd, truthy meta.host_sid)

/-- Socket event `join_room`. -/
def join_room (reg : Registry) (sid : Sid) (d : Data) : Registry × List Emit :=
  let room := upper (d.room.getD "")
  let name := d.name.getD "Guest"
  let role := d.role.getD "viewer"
  match lookupA reg room with
  | none => (reg, [⟨"join-error", .joinError "room-not-found", .toSid sid⟩])
  | some meta =>
    let meta₁ := { meta with
      participants := insertA meta.participants sid ⟨sid, name, role⟩ }
    if role = "host" then
      (insertA reg room { meta₁ with host_sid := some sid },
       [⟨"user-joined", .userJoined sid name role, .toRoom (some room) none⟩,
        ⟨"joined", .joined room true, .toSid sid⟩])
    else
      (insertA reg room meta₁,
       ⟨"user-joined", .userJoined sid name role, .toRoom (some room) none⟩ ::
       ((match meta.host_sid with
         | some h => if h = "" then [] else
             [⟨"viewer-joined", .viewerJoined sid name, .toSid h⟩]
         | none => []) ++
        [⟨"joined", .joined room (truthy meta.host_sid), .toSid sid⟩]))

/-- Cleanup of one room inside the `disconnect` loop body. -/
def disconnectRoom (sid : Sid) (code : String) (meta : RoomMeta) :
    RoomMeta × List Emit :=
  match lookupA meta.participants sid with
  | none => (meta, [])
  | some p =>
    let meta₁ := { meta with participants := eraseA meta.participants sid }
    if meta.host_sid = some sid then
      ({ meta₁ with host_sid := none },
       [⟨"user-left", .userLeft sid p.name, .toRoom (some code) none⟩,
        ⟨"host-left", .hostLeft "host disconnected", .toRoom (some code) none⟩])
    else
      (meta₁,
       [⟨"user-left", .userLeft sid p.name, .toRoom (some code) none⟩])

/-- Socket event `disconnect`: scan every room for the departing session
(the commented-out empty-room cleanup in the source is a no-op). -/
def disconnect (sid : Sid) (reg : Registry) : Registry × List Emit :=
  (reg.map (fun p => (p.1, (disconnectRoom sid p.1 p.2).1)),
   (reg.map (fun p => (disconnectRoom sid p.1 p.2).2)).flatten)

/-- Socket event `webrtc_offer`: directed when `data.get("to")` is truthy,
otherwise broadcast to `data.get("room", "").upper()` skipping the sender. -/
def webrtc_offer (reg : Registry) (sid : Sid) (d : Data) : Registry × List Emit :=
  if truthy d.target then
    (reg, [⟨"webrtc_offer", .offerP sid d.offer, .toSid (d.target.getD "")⟩])
  else
    (reg, [⟨"webrtc_offer", .offerP sid d.offer,
           .toRoom (some (upper (d.room.getD ""))) (some sid)⟩])

/-- Socket event `webrtc_answer`: directed only; with no truthy target the
message is dropped without any emit. -/
def webrtc_answer (reg : Registry) (sid : Sid) (d : Data) : Registry × List Emit :=
  if truthy d.target then
    (reg, [⟨"webrtc_answer", .answerP sid d.answer, .toSid (d.target.getD "")⟩])
  else
    (reg, [])

/-- Socket event `webrtc_ice`: directed when the target is truthy, otherwise
broadcast to `data.get("room")` passed verbatim (no default, no upcasing). -/
def webrtc_ice (reg : Registry) (sid : Sid) (d : Data) : Registry × List Emit :=
  if truthy d.target then
    (reg, [⟨"webrtc_ice", .iceP sid d.candidate, .toSid (d.target.getD "")⟩])
  else
    (reg, [⟨"webrtc_ice", .iceP sid d.candidate, .toRoom d.room (some sid)⟩])

/-- Socket event `chat_message`: room broadcast with no `skip_sid`. -/
def chat_message (reg : Registry) (sid : Sid) (d : Data) : Registry × List Emit :=
  (reg, [⟨"chat-message", .chatP sid d.name d.text,
         .toRoom (some (upper (d.room.getD ""))) none⟩])

/-- Socket event `host_state`: accepted only when the named room exists and
its `host_sid` equals the sender; then the payload is stored and rebroadcast. -/
def host_state (reg : Registry) (sid : Sid) (d : Data) : Registry × List Emit :=
  let room := upper (d.room.getD "")
  match lookupA reg room with
  | some meta =>
    if meta.host_sid = some sid then
      (insertA reg room { meta with host_state := some d },
       [⟨"host-state", .hostStateP d, .toRoom (some room) none⟩])
    else
      (reg, [])
  | none => (reg, [])

/-- One state-mutating step of the server: any handler invocation. -/
inductive Op where
  | createRoom (cands : List String) (now : Nat)
  | createRoomClient (sid : Sid) (code : String) (now : Nat)
  | joinRoom (sid : Sid) (d : Data)
  | disconnectOp (sid : Sid)
  | hostStateOp (sid : Sid) (d : Data)
  | offerOp (sid : Sid) (d : Data)
  | answerOp (sid : Sid) (d : Data)
  | iceOp (sid : Sid) (d : Data)
  | chatOp (sid : Sid) (d : Data)

/-- The registry after one handler invocation. -/
def applyOp (op : Op) (reg : Registry) : Registry :=
  match op with
  | .createRoom cands now => (create_room reg cands now).1
  | .createRoomClient sid code now => (create_room_client reg sid code now).1
  | .joinRoom sid d => (join_room reg sid d).1
  | .disconnectOp sid => (disconnect sid reg).1
  | .hostStateOp sid d => (host_state reg sid d).1
  | .offerOp sid d => (webrtc_offer reg sid d).1
  | .answerOp sid d => (webrtc_answer reg sid d).1
  | .iceOp sid d => (webrtc_ice reg sid d).1
  | .chatOp sid d => (chat_message reg sid d).1

/-- Registries reachable from the initially empty `rooms` dict. -/
inductive Reachable : Registry → Prop
  | init : Reachable []
  | step (reg : Registry) (op : Op) : Reachable reg → Reachable (applyOp op reg)

/-- A set `host_sid` always points at a key of the room's participants map. -/
def HostInv (reg : Registry) : Prop :=
  ∀ code meta, lookupA reg code = some meta →
    ∀ h, meta.host_sid = some h → (lookupA meta.participants h).isSome

/-- Number of `host-left` emits addressed to a given room. -/
def countHostLeft (code : String) (evs : List Emit) : Nat :=
  evs.countP (fun e => decide (e.event = "host-left" ∧ e.dest = Dest.toRoom (some code) none))

/-! ### Concrete fixtures used by counterexamples and witnesses -/

def pX : Participant := ⟨"x", "X", "host"⟩

def pY : Participant := ⟨"y", "Y", "viewer"⟩

def metaAB : RoomMeta :=
  { host_sid := some "x", participants := [("x", pX), ("y", pY)], created_at := 0 }

def regAB : Registry := [("AB", metaAB)]

/-! ### Association-list lemmas -/

theorem lookupA_insertA {β : Type} (l : List (String × β)) (k k₀ : String) (v : β) :
    lookupA (insertA l k v) k₀ = if k = k₀ then some v else lookupA l k₀ := by
  induction l with
  | nil => simp [insertA, lookupA]
  | cons p t ih =>
    obtain ⟨k₁, v₁⟩ := p
    by_cases h₁ : k₁ = k
    · subst h₁
      simp only [insertA, if_pos rfl, lookupA]
      by_cases h₂ : k₁ = k₀ <;> simp [h₂]
    · simp only [insertA, if_neg h₁, lookupA]
      by_cases h₂ : k₁ = k₀
      · subst h₂
        have hk : ¬(k = k₁) := fun h => h₁ h.symm
        simp [hk]
      · simp [h₂, ih]

theorem lookupA_insertA_isSome {β : Type} (l : List (String × β)) (k k₀ : String) (v : β)
    (h : (lookupA l k₀).isSome) : (lookupA (insertA l k v) k₀).isSome := by
  rw [lookupA_insertA]
  split <;> simp [h]

theorem lookupA_eraseA_ne {β : Type} (l : List (String × β)) (k k₀ : String)
    (h : k₀ ≠ k) : lookupA (eraseA l k) k₀ = lookupA l k₀ := by
  induction l with
  | nil => simp [eraseA]
  | cons p t ih =>
    obtain ⟨k₁, v₁⟩ := p
    by_cases h₁ : k₁ = k
    · subst h₁
      simp only [eraseA, if_pos rfl, lookupA]
      have : ¬(k₁ = k₀) := fun hk => h (hk ▸ rfl)
      simp [this]
    · simp only [eraseA, if_neg h₁, lookupA]
      by_cases h₂ : k₁ = k₀ <;> simp [h₂, ih]

theorem lookupA_eq_none_of_not_mem {β : Type} (l : List (String × β)) (k : String)
    (h : k ∉ l.map Prod.fst) : lookupA l k = none := by
  induction l with
  | nil => rfl
  | cons p t ih =>
    obtain ⟨k₁, v₁⟩ := p
    simp only [List.map_cons, List.mem_cons] at h
    push_neg at h
    have hk : ¬(k₁ = k) := fun hk => h.1 hk.symm
    simp only [lookupA, if_neg hk]
    exact ih h.2

theorem lookupA_eraseA_self {β : Type} (l : List (String × β)) (k : String)
    (hnd : (l.map Prod.fst).Nodup) : lookupA (eraseA l k) k = none := by
  induction l with
  | nil => rfl
  | cons p t ih =>
    obtain ⟨k₁, v₁⟩ := p
    simp only [List.map_cons, List.nodup_cons] at hnd
    by_cases h₁ : k₁ = k
    · subst h₁
      simp only [eraseA, if_pos rfl]
      exact lookupA_eq_none_of_not_mem t k₁ hnd.1
    · simp only [eraseA, if_neg h₁, lookupA, if_neg h₁]
      exact ih hnd.2

theorem lookupA_map_key {β γ : Type} (f : String → β → γ) (l : List (String × β)) (k : String) :
    lookupA (l.map (fun p => (p.1, f p.1 p.2))) k = (lookupA l k).map (f k) := by
  induction l with
  | nil => rfl
  | cons p t ih =>
    obtain ⟨k₁, v₁⟩ := p
    by_cases h₁ : k₁ = k
    · subst h₁
      simp [lookupA]
    · simp [lookupA, h₁, ih]

/-! ### C4: join against an unknown room code -/

/-- C4: a join request naming a room code absent from the registry emits a
join-error to the requesting session only and leaves the registry (hence every
room's participants, host and host status) completely unchanged. -/
theorem join_room_unknown (reg : Registry) (sid : Sid) (d : Data)
    (h : lookupA reg (upper (d.room.getD "")) = none) :
    join_room reg sid d =
      (reg, [⟨"join-error", Payload.joinError "room-not-found", Dest.toSid sid⟩]) := by
  simp only [join_room, h]

/-- C4 witness: joining the empty registry with code `ZZ` errors out and
changes nothing. -/
theorem join_room_unknown_witness :
    join_room [] "s1" ({ room := some "ZZ" } : Data) =
      ([], [⟨"join-error", Payload.joinError "room-not-found", Dest.toSid "s1"⟩]) :=
  join_room_unknown [] "s1" ({ room := some "ZZ" } : Data) rfl

/-! ### C5: offer routing -/

/-- C5: an offer with a (truthy) target is delivered to exactly that target;
an offer without a target is delivered to precisely the current participants of
the named room other than the sender, never back to the sender. -/
theorem webrtc_offer_routing (reg : Registry) (sid : Sid) (d : Data) :
    (truthy d.target = true →
      (webrtc_offer reg sid d).2.map Emit.dest = [Dest.toSid (d.target.getD "")] ∧
      receivers reg (webrtc_offer reg sid d).2 = [d.target.getD ""]) ∧
    (truthy d.target = false →
      ∀ s, s ∈ receivers reg (webrtc_offer reg sid d).2 ↔
        (s ∈ roomSids reg (upper (d.room.getD "")) ∧ s ≠ sid)) := by
  constructor
  · intro h
    simp [webrtc_offer, h, receivers, resolveDest]
  · intro h s
    simp only [webrtc_offer, h, Bool.false_eq_true, if_false, receivers, List.map_cons,
      List.map_nil, resolveDest, List.flatten_cons, List.flatten_nil, List.append_nil,
      List.mem_filter]
    constructor
    · rintro ⟨hmem, hne⟩
      refine ⟨hmem, ?_⟩
      intro hs
      subst hs
      simp at hne
    · rintro ⟨hmem, hne⟩
      refine ⟨hmem, ?_⟩
      simp [Ne.symm hne]

/-- C5 witness: in room `AB` = {x, y}, a directed offer from `x` to `y` reaches
only `y`, and an undirected offer from `x` reaches exactly `y`. -/
theorem webrtc_offer_routing_witness :
    (receivers regAB (webrtc_offer regAB "x" ({ target := some "y" } : Data)).2 = ["y"]) ∧
    ("y" ∈ receivers regAB (webrtc_offer regAB "x" ({ room := some "AB" } : Data)).2 ∧
      "x" ∉ receivers regAB (webrtc_offer regAB "x" ({ room := some "AB" } : Data)).2) := by
  refine ⟨((webrtc_offer_routing regAB "x" _).1 (by decide)).2, ?_, ?_⟩
  · exact ((webrtc_offer_routing regAB "x" ({ room := some "AB" } : Data)).2 (by decide) "y").2
      ⟨by decide, by decide⟩
  · intro hx
    exact absurd (((webrtc_offer_routing regAB "x" ({ room := some "AB" } : Data)).2
      (by decide) "x").1 hx).2 (by simp)

/-! ### C7: chat broadcast -/

/-- C7: a chat message is a single broadcast to the named room with no
`skip_sid`, so it reaches every current participant of the room, the sender
included, all with the identical payload. -/
theorem chat_message_broadcast (reg : Registry) (sid : Sid) (d : Data) :
    (chat_message reg sid d).2 =
      [⟨"chat-message", Payload.chatP sid d.name d.text,
        Dest.toRoom (some (upper (d.room.getD ""))) none⟩] ∧
    receivers reg (chat_message reg sid d).2 =
      roomSids reg (upper (d.room.getD "")) := by
  refine ⟨rfl, ?_⟩
  simp [chat_message, receivers, resolveDest, List.filter_eq_self]

/-! ### C8: answer routing -/

/-- C8: an answer with a (truthy) target is delivered to that target only; an
answer without a target is dropped entirely: no emit of any kind (no delivery,
no error back to the sender) and no state change. -/
theorem webrtc_answer_routing (reg : Registry) (sid : Sid) (d : Data) :
    (truthy d.target = true →
      webrtc_answer reg sid d =
        (reg, [⟨"webrtc_answer", Payload.answerP sid d.answer,
               Dest.toSid (d.target.getD "")⟩]) ∧
      receivers reg (webrtc_answer reg sid d).2 = [d.target.getD ""]) ∧
    (truthy d.target = false → webrtc_answer reg sid d = (reg, [])) := by
  constructor
  · intro h
    simp [webrtc_answer, h, receivers, resolveDest]
  · intro h
    simp [webrtc_answer, h]

/-- C8 witness: a directed answer from `x` to `y` reaches only `y`; an answer
with no target produces no emit at all. -/
theorem webrtc_answer_routing_witness :
    receivers regAB (webrtc_answer regAB "x" ({ target := some "y" } : Data)).2 = ["y"] ∧
    webrtc_answer regAB "x" ({ } : Data) = (regAB, []) :=
  ⟨((webrtc_answer_routing regAB "x" _).1 (by decide)).2,
   (webrtc_answer_routing regAB "x" ({ } : Data)).2 (by decide)⟩

/-! ### C1: ice routing versus offer routing -/

/-- C1 counterexample: the routing outcomes of `webrtc_ice` and `webrtc_offer`
are not equal on every input.  In room `AB` = {x, y}, an undirected candidate
from `x` carrying the lower-case room field `ab` is broadcast by
`webrtc_offer` to room `upper("ab") = "AB"` (reaching `y`), while `webrtc_ice`
broadcasts to the verbatim room `"ab"`, which names no room, so nobody
receives it. -/
theorem webrtc_ice_offer_routing_differs :
    receivers regAB (webrtc_ice regAB "x" ({ room := some "ab" } : Data)).2 ≠
      receivers regAB (webrtc_offer regAB "x" ({ room := some "ab" } : Data)).2 := by
  decide

/-- C1 (amended): `webrtc_ice` applies the same directed-or-broadcast rule as
`webrtc_offer` — truthy target: deliver to the target only; otherwise broadcast
to the room skipping the sender — and the two handlers route identically on
every input whose target is truthy or whose room field is present and already
upper-case.  They differ in general only because `webrtc_offer` normalises the
room (missing defaults to `""`, then upper-cased) while `webrtc_ice` passes
`data.get("room")` through verbatim. -/
theorem webrtc_ice_routes_like_offer (reg : Registry) (sid : Sid) (d : Data)
    (h : truthy d.target = true ∨ ∃ r, d.room = some r ∧ upper r = r) :
    (webrtc_ice reg sid d).2.map Emit.dest = (webrtc_offer reg sid d).2.map Emit.dest ∧
    receivers reg (webrtc_ice reg sid d).2 = receivers reg (webrtc_offer reg sid d).2 := by
  rcases h with h | ⟨r, hr, hu⟩
  · simp [webrtc_ice, webrtc_offer, h, receivers]
  · by_cases ht : truthy d.target
    · simp [webrtc_ice, webrtc_offer, ht, receivers]
    · simp [webrtc_ice, webrtc_offer, ht, hr, hu, receivers]

/-- C1 witness: a directed candidate and a directed offer from `x` to `y`
route identically, as do undirected ones naming the upper-case room `AB`. -/
theorem webrtc_ice_routes_like_offer_witness :
    ((webrtc_ice regAB "x" ({ target := some "y" } : Data)).2.map Emit.dest =
      (webrtc_offer regAB "x" ({ target := some "y" } : Data)).2.map Emit.dest ∧
     receivers regAB (webrtc_ice regAB "x" ({ target := some "y" } : Data)).2 =
      receivers regAB (webrtc_offer regAB "x" ({ target := some "y" } : Data)).2) ∧
    ((webrtc_ice regAB "x" ({ room := some "AB" } : Data)).2.map Emit.dest =
      (webrtc_offer regAB "x" ({ room := some "AB" } : Data)).2.map Emit.dest ∧
     receivers regAB (webrtc_ice regAB "x" ({ room := some "AB" } : Data)).2 =
      receivers regAB (webrtc_offer regAB "x" ({ room := some "AB" } : Data)).2) :=
  ⟨webrtc_ice_routes_like_offer regAB "x" _ (Or.inl (by decide)),
   webrtc_ice_routes_like_offer regAB "x" _ (Or.inr ⟨"AB", rfl, by decide⟩)⟩

/-! ### C3: host-status authorisation -/

/-- C3: a host-status update is accepted iff the sender is the named room's
current `host_sid`: on acceptance the payload is stored as the room's host
status and broadcast (without `skip_sid`) to the room, reaching all of its
participants; from any other sender, or for an unknown room, the handler
changes nothing and emits nothing — no broadcast, no stored change, no error. -/
theorem host_state_auth (reg : Registry) (sid : Sid) (d : Data) :
    (∀ meta, lookupA reg (upper (d.room.getD "")) = some meta →
      (meta.host_sid = some sid →
        (host_state reg sid d).1 =
          insertA reg (upper (d.room.getD "")) { meta with host_state := some d } ∧
        (host_state reg sid d).2 =
          [⟨"host-state", Payload.hostStateP d,
            Dest.toRoom (some (upper (d.room.getD ""))) none⟩] ∧
        lookupA (host_state reg sid d).1 (upper (d.room.getD "")) =
          some { meta with host_state := some d } ∧
        receivers (host_state reg sid d).1 (host_state reg sid d).2 =
          meta.participants.map Prod.fst) ∧
      (meta.host_sid ≠ some sid → host_state reg sid d = (reg, []))) ∧
    (lookupA reg (upper (d.room.getD "")) = none → host_state reg sid d = (reg, [])) := by
  refine ⟨fun meta hm => ⟨fun hh => ?_, fun hh => ?_⟩, fun hm => ?_⟩
  · simp only [host_state, hm]
    rw [if_pos hh]
    refine ⟨rfl, rfl, ?_, ?_⟩
    · rw [lookupA_insertA]
      simp
    · simp [receivers, resolveDest, roomSids, lookupA_insertA]
  · simp only [host_state, hm]
    rw [if_neg hh]
  · simp only [host_state, hm]

/-- C3 witness: in room `AB` whose host is `x`, an update from `x` is stored
and broadcast to the whole room, while the same update from viewer `y` is
silently dropped. -/
theorem host_state_auth_witness :
    ((host_state regAB "x" ({ room := some "AB", text := some "sharing" } : Data)).2 =
      [⟨"host-state",
        Payload.hostStateP ({ room := some "AB", text := some "sharing" } : Data),
        Dest.toRoom (some "AB") none⟩] ∧
     receivers (host_state regAB "x" ({ room := some "AB", text := some "sharing" } : Data)).1
        (host_state regAB "x" ({ room := some "AB", text := some "sharing" } : Data)).2 =
      ["x", "y"]) ∧
    host_state regAB "y" ({ room := some "AB", text := some "sharing" } : Data) =
      (regAB, []) := by
  refine ⟨⟨?_, ?_⟩, ?_⟩
  · exact (((host_state_auth regAB "x" _).1 metaAB (by decide)).1 (by decide)).2.1
  · exact (((host_state_auth regAB "x" _).1 metaAB (by decide)).1 (by decide)).2.2.2
  · exact ((host_state_auth regAB "y" _).1 metaAB (by decide)).2 (by decide)

/-! ### C6: room creation with bounded retry -/

theorem pickCode_mem (reg : Registry) :
    ∀ (cands : List String), cands ≠ [] → pickCode reg cands ∈ cands
  | [], h => absurd rfl h
  | [c], _ => by simp [pickCode]
  | c :: c₁ :: rest, _ => by
    by_cases h : (lookupA reg c).isNone
    · simp [pickCode, h]
    · have hmem := pickCode_mem reg (c₁ :: rest) (by simp)
      simp only [pickCode, if_neg h]
      exact List.mem_cons_of_mem c hmem

theorem pickCode_first_free (reg : Registry) :
    ∀ (cands : List String), (∃ c ∈ cands, lookupA reg c = none) →
      ∃ pre post, cands = pre ++ pickCode reg cands :: post ∧
        lookupA reg (pickCode reg cands) = none ∧
        ∀ c ∈ pre, (lookupA reg c).isSome
  | [], h => by simp at h
  | [c], h => by
    simp only [List.mem_singleton, exists_eq_left] at h
    exact ⟨[], [], by simp [pickCode], by simpa [pickCode] using h, by simp⟩
  | c :: c₁ :: rest, h => by
    by_cases hc : (lookupA reg c).isNone
    · refine ⟨[], c₁ :: rest, ?_, ?_, by simp⟩
      · simp [pickCode, hc]
      · simp only [pickCode, if_pos hc]
        exact Option.isNone_iff_eq_none.mp hc
    · have hcs : lookupA reg c ≠ none := fun hn => hc (Option.isNone_iff_eq_none.mpr hn)
      have htail : ∃ x ∈ c₁ :: rest, lookupA reg x = none := by
        rcases h with ⟨x, hx, hxn⟩
        rcases List.mem_cons.mp hx with hx | hx
        · exact absurd (hx ▸ hxn) hcs
        · exact ⟨x, hx, hxn⟩
      obtain ⟨pre, post, heq, hfree, hpre⟩ := pickCode_first_free reg (c₁ :: rest) htail
      have hpick : pickCode reg (c :: c₁ :: rest) = pickCode reg (c₁ :: rest) := by
        rw [show pickCode reg (c :: c₁ :: rest) =
            if (lookupA reg c).isNone then c else pickCode reg (c₁ :: rest) from rfl,
          if_neg hc]
      refine ⟨c :: pre, post, ?_, ?_, ?_⟩
      · rw [hpick, List.cons_append, ← heq]
      · rw [hpick]
        exact hfree
      · intro x hx
        rcases List.mem_cons.mp hx with hx | hx
        · subst hx
          exact Option.isSome_iff_ne_none.mpr hcs
        · exact hpre x hx

theorem pickCode_all_taken (reg : Registry) :
    ∀ (cands : List String), (∀ c ∈ cands, (lookupA reg c).isSome) → cands ≠ [] →
      cands.getLast? = some (pickCode reg cands)
  | [], _, h => absurd rfl h
  | [c], _, _ => by simp [pickCode]
  | c :: c₁ :: rest, h, _ => by
    have hc : ¬(lookupA reg c).isNone := by
      have := h c (by simp)
      simp [Option.isNone_iff_eq_none, Option.isSome_iff_ne_none.mp this]
    have htail := pickCode_all_taken reg (c₁ :: rest)
      (fun x hx => h x (List.mem_cons_of_mem c hx)) (by simp)
    have hpick : pickCode reg (c :: c₁ :: rest) = pickCode reg (c₁ :: rest) := by
      rw [show pickCode reg (c :: c₁ :: rest) =
          if (lookupA reg c).isNone then c else pickCode reg (c₁ :: rest) from rfl,
        if_neg hc]
    rw [List.getLast?_cons_cons, hpick]
    exact htail

/-- C6: `create_room` tries its five generated candidate codes in order,
keeping the first one free in the registry (retrying on collision) and falling
back to the fifth even if it still collides; in every case it stores — possibly
overwriting — a fresh room state (no host, empty participants) under the final
candidate and returns that code, so the entry at the returned code is always
the fresh empty state. -/
theorem create_room_spec (reg : Registry) (cands : List String) (now : Nat)
    (hlen : cands.length = 5) :
    lookupA (create_room reg cands now).1 (create_room reg cands now).2 =
      some (fresh_meta now) ∧
    (create_room reg cands now).2 ∈ cands ∧
    ((∃ c ∈ cands, lookupA reg c = none) →
      ∃ pre post, cands = pre ++ (create_room reg cands now).2 :: post ∧
        lookupA reg (create_room reg cands now).2 = none ∧
        ∀ c ∈ pre, (lookupA reg c).isSome) ∧
    ((∀ c ∈ cands, (lookupA reg c).isSome) →
      cands.getLast? = some (create_room reg cands now).2) := by
  have hne : cands ≠ [] := by
    intro h
    rw [h] at hlen
    simp at hlen
  refine ⟨?_, ?_, ?_, ?_⟩
  · simp only [create_room]
    rw [lookupA_insertA]
    simp
  · exact pickCode_mem reg cands hne
  · intro h
    exact pickCode_first_free reg cands h
  · intro h
    exact pickCode_all_taken reg cands h hne

/-- C6 witness: with `B` already taken, the candidate stream
`[B, B, B, C, D]` yields code `C`, stored as the fresh empty room. -/
theorem create_room_spec_witness :
    lookupA (create_room [("B", metaAB)] ["B", "B", "B", "C", "D"] 7).1
        (create_room [("B", metaAB)] ["B", "B", "B", "C", "D"] 7).2 =
      some (fresh_meta 7) ∧
    (create_room [("B", metaAB)] ["B", "B", "B", "C", "D"] 7).2 ∈
      ["B", "B", "B", "C", "D"] :=
  ⟨(create_room_spec [("B", metaAB)] _ 7 (by decide)).1,
   (create_room_spec [("B", metaAB)] _ 7 (by decide)).2.1⟩

/-! ### Evaluation lemmas for `disconnectRoom` -/

theorem disconnectRoom_eq_none (sid : Sid) (c : String) (m : RoomMeta)
    (hp : lookupA m.participants sid = none) :
    disconnectRoom sid c m = (m, []) := by
  simp [disconnectRoom, hp]

theorem disconnectRoom_eq_host (sid : Sid) (c : String) (m : RoomMeta) (p : Participant)
    (hp : lookupA m.participants sid = some p) (hh : m.host_sid = some sid) :
    disconnectRoom sid c m =
      ({ m with participants := eraseA m.participants sid, host_sid := none },
       [⟨"user-left", .userLeft sid p.name, .toRoom (some c) none⟩,
        ⟨"host-left", .hostLeft "host disconnected", .toRoom (some c) none⟩]) := by
  simp [disconnectRoom, hp, hh]

theorem disconnectRoom_eq_nonhost (sid : Sid) (c : String) (m : RoomMeta) (p : Participant)
    (hp : lookupA m.participants sid = some p) (hh : m.host_sid ≠ some sid) :
    disconnectRoom sid c m =
      ({ m with participants := eraseA m.participants sid },
       [⟨"user-left", .userLeft sid p.name, .toRoom (some c) none⟩]) := by
  simp [disconnectRoom, hp, hh]

theorem disconnect_lookup (sid : Sid) (reg : Registry) (code : String) :
    lookupA (disconnect sid reg).1 code =
      (lookupA reg code).map (fun m => (disconnectRoom sid code m).1) := by
  simp only [disconnect]
  exact lookupA_map_key (fun k m => (disconnectRoom sid k m).1) reg code

/-! ### C9: registry keys are never removed -/

/-- C9: no handler invocation removes a room-code key from the registry — any
code bound before an operation is still bound after it; in particular a room
whose last participant and host just disconnected stays in the registry. -/
theorem registry_keys_persist (op : Op) (reg : Registry) (code : String)
    (h : (lookupA reg code).isSome) : (lookupA (applyOp op reg) code).isSome := by
  cases op with
  | createRoom cands now =>
    exact lookupA_insertA_isSome reg _ code _ h
  | createRoomClient sid c now =>
    exact lookupA_insertA_isSome reg _ code _ h
  | joinRoom sid d =>
    simp only [applyOp, join_room]
    rcases hm : lookupA reg (upper (d.room.getD "")) with _ | meta
    · exact h
    · by_cases hr : (d.role.getD "viewer") = "host"
      · simp only [if_pos hr]
        exact lookupA_insertA_isSome reg _ code _ h
      · simp only [if_neg hr]
        exact lookupA_insertA_isSome reg _ code _ h
  | disconnectOp sid =>
    have : lookupA (applyOp (Op.disconnectOp sid) reg) code =
        (lookupA reg code).map (fun m => (disconnectRoom sid code m).1) :=
      disconnect_lookup sid reg code
    rw [this]
    rcases hm : lookupA reg code with _ | m
    · rw [hm] at h
      simp at h
    · simp
  | hostStateOp sid d =>
    rcases hm : lookupA reg (upper (d.room.getD "")) with _ | meta
    · have he : applyOp (Op.hostStateOp sid d) reg = reg := by
        simp [applyOp, host_state, hm]
      rw [he]
      exact h
    · by_cases hh : meta.host_sid = some sid
      · have he : applyOp (Op.hostStateOp sid d) reg =
            insertA reg (upper (d.room.getD "")) { meta with host_state := some d } := by
          simp [applyOp, host_state, hm, hh]
        rw [he]
        exact lookupA_insertA_isSome reg _ code _ h
      · have he : applyOp (Op.hostStateOp sid d) reg = reg := by
          simp [applyOp, host_state, hm, hh]
        rw [he]
        exact h
  | offerOp sid d =>
    simp only [applyOp, webrtc_offer]
    by_cases ht : truthy d.target <;> simp [ht, h]
  | answerOp sid d =>
    simp only [applyOp, webrtc_answer]
    by_cases ht : truthy d.target <;> simp [ht, h]
  | iceOp sid d =>
    simp only [applyOp, webrtc_ice]
    by_cases ht : truthy d.target <;> simp [ht, h]
  | chatOp sid d =>
    exact h

/-- C9 witness: after host `x` (the only way room `AB` could empty out)
disconnects, the key `AB` is still in the registry. -/
theorem registry_keys_persist_witness :
    (lookupA (applyOp (Op.disconnectOp "x") regAB) "AB").isSome :=
  registry_keys_persist (Op.disconnectOp "x") regAB "AB" (by decide)

/-! ### C10: a set host pointer never dangles -/

theorem hostInv_insert (reg : Registry) (code : String) (m : RoomMeta)
    (hinv : HostInv reg)
    (hm : ∀ h, m.host_sid = some h → (lookupA m.participants h).isSome) :
    HostInv (insertA reg code m) := by
  intro c m' hm' h hh
  rw [lookupA_insertA] at hm'
  by_cases hc : code = c
  · rw [if_pos hc] at hm'
    injection hm' with hmm
    subst hmm
    exact hm h hh
  · rw [if_neg hc] at hm'
    exact hinv c m' hm' h hh

theorem hostInv_applyOp (op : Op) (reg : Registry) (hinv : HostInv reg) :
    HostInv (applyOp op reg) := by
  cases op with
  | createRoom cands now =>
    exact hostInv_insert reg (pickCode reg cands) (fresh_meta now) hinv
      (fun h hh => by simp [fresh_meta] at hh)
  | createRoomClient sid c now =>
    exact hostInv_insert reg c (fresh_meta now) hinv
      (fun h hh => by simp [fresh_meta] at hh)
  | joinRoom sid d =>
    rcases hm : lookupA reg (upper (d.room.getD "")) with _ | meta
    · have he : applyOp (Op.joinRoom sid d) reg = reg := by
        simp [applyOp, join_room, hm]
      rw [he]
      exact hinv
    · by_cases hr : (d.role.getD "viewer") = "host"
      · have he : applyOp (Op.joinRoom sid d) reg =
            insertA reg (upper (d.room.getD ""))
              { meta with
                participants := insertA meta.participants sid
                  ⟨sid, d.name.getD "Guest", d.role.getD "viewer"⟩,
                host_sid := some sid } := by
          simp [applyOp, join_room, hm, hr]
        rw [he]
        refine hostInv_insert reg _ _ hinv ?_
        intro h hh
        injection hh with hh
        subst hh
        rw [lookupA_insertA]
        simp
      · have he : applyOp (Op.joinRoom sid d) reg =
            insertA reg (upper (d.room.getD ""))
              { meta with
                participants := insertA meta.participants sid
                  ⟨sid, d.name.getD "Guest", d.role.getD "viewer"⟩ } := by
          simp [applyOp, join_room, hm, hr]
        rw [he]
        refine hostInv_insert reg _ _ hinv ?_
        intro h hh
        exact lookupA_insertA_isSome _ _ _ _ (hinv _ meta hm h hh)
  | disconnectOp sid =>
    intro c m' hm' h hh
    simp only [applyOp] at hm'
    rw [disconnect_lookup] at hm'
    rcases hmm : lookupA reg c with _ | m
    · rw [hmm] at hm'
      simp at hm'
    · rw [hmm] at hm'
      simp only [Option.map_some'] at hm'
      injection hm' with hm₂
      subst hm₂
      have hminv := hinv c m hmm
      rcases hp : lookupA m.participants sid with _ | p
      · rw [disconnectRoom_eq_none sid c m hp] at hh ⊢
        exact hminv h hh
      · by_cases hhost : m.host_sid = some sid
        · rw [disconnectRoom_eq_host sid c m p hp hhost] at hh
          simp at hh
        · rw [disconnectRoom_eq_nonhost sid c m p hp hhost] at hh ⊢
          have hh' : m.host_sid = some h := hh
          have hne : h ≠ sid := fun he => hhost (he ▸ hh')
          show (lookupA (eraseA m.participants sid) h).isSome
          rw [lookupA_eraseA_ne _ _ _ hne]
          exact hminv h hh'
  | hostStateOp sid d =>
    rcases hm : lookupA reg (upper (d.room.getD "")) with _ | meta
    · have he : applyOp (Op.hostStateOp sid d) reg = reg := by
        simp [applyOp, host_state, hm]
      rw [he]
      exact hinv
    · by_cases hh : meta.host_sid = some sid
      · have he : applyOp (Op.hostStateOp sid d) reg =
            insertA reg (upper (d.room.getD "")) { meta with host_state := some d } := by
          simp [applyOp, host_state, hm, hh]
        rw [he]
        refine hostInv_insert reg _ _ hinv ?_
        intro h hh₂
        exact hinv _ meta hm h hh₂
      · have he : applyOp (Op.hostStateOp sid d) reg = reg := by
          simp [applyOp, host_state, hm, hh]
        rw [he]
        exact hinv
  | offerOp sid d =>
    have he : applyOp (Op.offerOp sid d) reg = reg := by
      by_cases ht : truthy d.target <;> simp [applyOp, webrtc_offer, ht]
    rw [he]
    exact hinv
  | answerOp sid d =>
    have he : applyOp (Op.answerOp sid d) reg = reg := by
      by_cases ht : truthy d.target <;> simp [applyOp, webrtc_answer, ht]
    rw [he]
    exact hinv
  | iceOp sid d =>
    have he : applyOp (Op.iceOp sid d) reg = reg := by
      by_cases ht : truthy d.target <;> simp [applyOp, webrtc_ice, ht]
    rw [he]
    exact hinv
  | chatOp sid d =>
    exact hinv

/-- C10: in every reachable registry state, whenever a room's `host_sid` is
set it is a key of that room's participants map — a host join sets both
together, a disconnect that removes the host also clears `host_sid`, room
(re)creation resets both — so it never dangles. -/
theorem reachable_hostInv (reg : Registry) (h : Reachable reg) : HostInv reg := by
  induction h with
  | init =>
    intro code meta hm
    simp [lookupA] at hm
  | step reg op hr ih =>
    exact hostInv_applyOp op reg ih

/-- C10 witness: the invariant holds in the concrete reachable state obtained
by creating room `AB` and then joining it as host. -/
theorem reachable_hostInv_witness :
    HostInv (applyOp
      (Op.joinRoom "s1" ({ room := some "AB", role := some "host" } : Data))
      (applyOp (Op.createRoom ["AB", "CD", "EF", "GH", "IJ"] 0) [])) :=
  reachable_hostInv _ (Reachable.step _ _ (Reachable.step _ _ Reachable.init))

/-! ### C2: disconnect cleanup and the host-left broadcast -/

theorem disconnect_cons (sid : Sid) (c : String) (m : RoomMeta) (t : Registry) :
    disconnect sid ((c, m) :: t) =
      ((c, (disconnectRoom sid c m).1) :: (disconnect sid t).1,
       (disconnectRoom sid c m).2 ++ (disconnect sid t).2) := by
  simp [disconnect]

theorem disconnectRoom_dest (sid : Sid) (c : String) (m : RoomMeta) :
    ∀ e ∈ (disconnectRoom sid c m).2, e.dest = Dest.toRoom (some c) none := by
  intro e he
  rcases hp : lookupA m.participants sid with _ | p
  · rw [disconnectRoom_eq_none sid c m hp] at he
    simp at he
  · by_cases hh : m.host_sid = some sid
    · rw [disconnectRoom_eq_host sid c m p hp hh] at he
      simp only [List.mem_cons, List.not_mem_nil, or_false] at he
      rcases he with rfl | rfl <;> rfl
    · rw [disconnectRoom_eq_nonhost sid c m p hp hh] at he
      simp only [List.mem_singleton] at he
      subst he
      rfl

theorem countHostLeft_append (code : String) (l₁ l₂ : List Emit) :
    countHostLeft code (l₁ ++ l₂) = countHostLeft code l₁ + countHostLeft code l₂ := by
  simp [countHostLeft, List.countP_append]

theorem countHostLeft_disconnectRoom_ne (sid : Sid) (c code : String) (m : RoomMeta)
    (hne : c ≠ code) : countHostLeft code (disconnectRoom sid c m).2 = 0 := by
  unfold countHostLeft
  rw [List.countP_eq_zero]
  intro e he
  have hd := disconnectRoom_dest sid c m e he
  simp [hd, hne]

theorem countHostLeft_disconnectRoom_self (sid : Sid) (code : String) (m : RoomMeta) :
    countHostLeft code (disconnectRoom sid code m).2 =
      if (lookupA m.participants sid).isSome ∧ m.host_sid = some sid then 1 else 0 := by
  rcases hp : lookupA m.participants sid with _ | p
  · rw [disconnectRoom_eq_none sid code m hp]
    simp [countHostLeft]
  · by_cases hh : m.host_sid = some sid
    · rw [disconnectRoom_eq_host sid code m p hp hh]
      simp [countHostLeft, hh, List.countP_cons]
    · rw [disconnectRoom_eq_nonhost sid code m p hp hh]
      simp [countHostLeft, hh, List.countP_cons]

theorem countHostLeft_disconnect_notmem (sid : Sid) (code : String) :
    ∀ (reg : Registry), code ∉ reg.map Prod.fst →
      countHostLeft code (disconnect sid reg).2 = 0
  | [], _ => by simp [disconnect, countHostLeft]
  | (c, m) :: t, h => by
    simp only [List.map_cons, List.mem_cons] at h
    push_neg at h
    rw [disconnect_cons]
    show countHostLeft code ((disconnectRoom sid c m).2 ++ (disconnect sid t).2) = 0
    rw [countHostLeft_append,
      countHostLeft_disconnectRoom_ne sid c code m (fun he => h.1 he.symm),
      countHostLeft_disconnect_notmem sid code t h.2]

theorem countHostLeft_disconnect (sid : Sid) (code : String) :
    ∀ (reg : Registry), (reg.map Prod.fst).Nodup →
      ∀ meta, lookupA reg code = some meta →
        countHostLeft code (disconnect sid reg).2 =
          if (lookupA meta.participants sid).isSome ∧ meta.host_sid = some sid
          then 1 else 0
  | [], _, meta, hm => by simp [lookupA] at hm
  | (c, m) :: t, hnd, meta, hm => by
    simp only [List.map_cons, List.nodup_cons] at hnd
    rw [disconnect_cons]
    show countHostLeft code ((disconnectRoom sid c m).2 ++ (disconnect sid t).2) = _
    rw [countHostLeft_append]
    by_cases hc : c = code
    · subst hc
      have hmm : m = meta := by
        simp only [lookupA, if_pos rfl] at hm
        injection hm
      subst hmm
      rw [countHostLeft_disconnectRoom_self,
        countHostLeft_disconnect_notmem sid c t hnd.1]
      simp
    · have hm' : lookupA t code = some meta := by
        simpa only [lookupA, if_neg hc] using hm
      rw [countHostLeft_disconnectRoom_ne sid c code m hc,
        countHostLeft_disconnect sid code t hnd.2 meta hm']
      simp

/-- C2: when a session disconnects, every room listing it as a participant
drops that participant entry; if the session was that room's host, `host_sid`
is cleared (so a snapshot then reports host-online false) and exactly one
`host-left` event is broadcast to that room, while if it was a non-host
participant, `host_sid` is untouched and no `host-left` event for that room is
emitted. -/
theorem disconnect_host_cleanup (reg : Registry) (sid : Sid) (code : String)
    (meta : RoomMeta)
    (hnd : (reg.map Prod.fst).Nodup)
    (hpn : (meta.participants.map Prod.fst).Nodup)
    (hlk : lookupA reg code = some meta)
    (hp : (lookupA meta.participants sid).isSome) :
    ∃ meta', lookupA (disconnect sid reg).1 code = some meta' ∧
      lookupA meta'.participants sid = none ∧
      (meta.host_sid = some sid →
        meta'.host_sid = none ∧
        truthy meta'.host_sid = false ∧
        countHostLeft code (disconnect sid reg).2 = 1) ∧
      (meta.host_sid ≠ some sid →
        meta'.host_sid = meta.host_sid ∧
        countHostLeft code (disconnect sid reg).2 = 0) := by
  obtain ⟨p, hp'⟩ := Option.isSome_iff_exists.mp hp
  refine ⟨(disconnectRoom sid code meta).1, ?_, ?_, ?_, ?_⟩
  · rw [disconnect_lookup, hlk]
    rfl
  · by_cases hh : meta.host_sid = some sid
    · rw [disconnectRoom_eq_host sid code meta p hp' hh]
      exact lookupA_eraseA_self _ _ hpn
    · rw [disconnectRoom_eq_nonhost sid code meta p hp' hh]
      exact lookupA_eraseA_self _ _ hpn
  · intro hh
    rw [disconnectRoom_eq_host sid code meta p hp' hh]
    refine ⟨rfl, rfl, ?_⟩
    rw [countHostLeft_disconnect sid code reg hnd meta hlk]
    simp [hp, hh]
  · intro hh
    rw [disconnectRoom_eq_nonhost sid code meta p hp' hh]
    refine ⟨rfl, ?_⟩
    rw [countHostLeft_disconnect sid code reg hnd meta hlk]
    simp [hh]

/-- C2 witness: when host `x` of room `AB` disconnects, its participant entry
goes away, the host pointer is cleared, and exactly one `host-left` event is
broadcast to room `AB`. -/
theorem disconnect_host_cleanup_witness :
    ∃ meta', lookupA (disconnect "x" regAB).1 "AB" = some meta' ∧
      lookupA meta'.participants "x" = none ∧
      (metaAB.host_sid = some "x" →
        meta'.host_sid = none ∧
        truthy meta'.host_sid = false ∧
        countHostLeft "AB" (disconnect "x" regAB).2 = 1) ∧
      (metaAB.host_sid ≠ some "x" →
        meta'.host_sid = metaAB.host_sid ∧
        countHostLeft "AB" (disconnect "x" regAB).2 = 0) :=
  disconnect_host_cleanup regAB "x" "AB" metaAB (by decide) (by decide) (by decide)
    (by decide)

end WatchTogether
